import Mathlib

/-!
Verification of the simple JSON log parser
(`curriculum/examples/simple-parser/src/main.rs`).

The program parses newline-delimited JSON log lines into a `LogEvent`
record (fixed fields `timestamp : u64`, `level : String`,
`message : String`, plus a serde-flattened `extra : serde_json::Value`
catch-all), counts successes and failures over a read loop, and prints a
summary.  We embed the JSON data model, the text-level JSON parsing and
the serde-style deserialization of `LogEvent`, together with the driver
loop, and prove the spec's properties about them.
-/

/-- A JSON number as `serde_json` represents it without the
`arbitrary_precision` feature: an integer that fits `u64` or `i64`
(constructor `int`), or otherwise a floating-point value, which we keep
as the raw source literal (constructor `float`).  Deserializing `u64`
from a `float` always fails, which is all the program observes of it. -/
inductive JNum where
  | int (i : Int)
  | float (raw : String)
deriving DecidableEq, Repr

/-- JSON values.  Object members are kept in source order, duplicates
included, mirroring the streaming `serde_json` deserializer and the
serde `Content` buffer that the `#[serde(flatten)]` field observes. -/
inductive Json where
  | null
  | bool (b : Bool)
  | num (n : JNum)
  | str (s : String)
  | arr (elems : List Json)
  | obj (members : List (String × Json))

/-- The structured record produced by parsing one input line
(`struct LogEvent` in the source).  `timestamp` is a `u64`, modelled as
a `Nat` that deserialization only ever fills with a value `< 2^64`. -/
structure LogEvent where
  timestamp : Nat
  level : String
  message : String
  extra : Json

/-! ### JSON text parsing (`serde_json::from_str`, syntax layer) -/

/-- JSON insignificant whitespace. -/
def isWs (c : Char) : Bool :=
  c = ' ' || c = '\t' || c = '\n' || c = '\r'

/-- Skip leading whitespace. -/
def skipWs : List Char → List Char
  | [] => []
  | c :: rest => if isWs c then skipWs rest else c :: rest

/-- Decimal digit test. -/
def isDigit (c : Char) : Bool :=
  '0' ≤ c && c ≤ '9'

/-- Value of a hex digit, if `c` is one. -/
def hexVal (c : Char) : Option Nat :=
  if '0' ≤ c && c ≤ '9' then some (c.toNat - 48)
  else if 'a' ≤ c && c ≤ 'f' then some (c.toNat - 87)
  else if 'A' ≤ c && c ≤ 'F' then some (c.toNat - 55)
  else none

/-- Four hex digits of a `\u` escape. -/
def parseHex4 : List Char → Option (Nat × List Char)
  | c1 :: c2 :: c3 :: c4 :: rest => do
    let a ← hexVal c1
    let b ← hexVal c2
    let c ← hexVal c3
    let d ← hexVal c4
    pure (a * 4096 + b * 256 + c * 16 + d, rest)
  | _ => none

/-- Body of a JSON string after the opening quote: unescapes, rejects
unescaped control characters and lone surrogates, and stops at the
closing quote, as `serde_json` does. -/
def parseStrChars (fuel : Nat) (cs : List Char) (acc : List Char) :
    Option (String × List Char) :=
  match fuel with
  | 0 => none
  | fuel + 1 =>
    match cs with
    | [] => none
    | '"' :: rest => some (String.mk acc.reverse, rest)
    | '\\' :: esc :: rest =>
      match esc with
      | '"' => parseStrChars fuel rest ('"' :: acc)
      | '\\' => parseStrChars fuel rest ('\\' :: acc)
      | '/' => parseStrChars fuel rest ('/' :: acc)
      | 'b' => parseStrChars fuel rest ('\x08' :: acc)
      | 'f' => parseStrChars fuel rest ('\x0c' :: acc)
      | 'n' => parseStrChars fuel rest ('\n' :: acc)
      | 'r' => parseStrChars fuel rest ('\r' :: acc)
      | 't' => parseStrChars fuel rest ('\t' :: acc)
      | 'u' => do
        let (n, rest1) ← parseHex4 rest
        if 0xD800 ≤ n && n ≤ 0xDBFF then
          match rest1 with
          | '\\' :: 'u' :: rest2 => do
            let (n2, rest3) ← parseHex4 rest2
            if 0xDC00 ≤ n2 && n2 ≤ 0xDFFF then
              let code := 0x10000 + (n - 0xD800) * 0x400 + (n2 - 0xDC00)
              parseStrChars fuel rest3 (Char.ofNat code :: acc)
            else none
          | _ => none
        else if 0xDC00 ≤ n && n ≤ 0xDFFF then none
        else parseStrChars fuel rest1 (Char.ofNat n :: acc)
      | _ => none
    | c :: rest =>
      if c.toNat < 0x20 then none else parseStrChars fuel rest (c :: acc)

/-- Longest prefix of decimal digits, and the remainder. -/
def takeDigits : List Char → List Char × List Char
  | [] => ([], [])
  | c :: rest =>
    if isDigit c then
      let (ds, r) := takeDigits rest
      (c :: ds, r)
    else ([], c :: rest)

/-- Numeric value of a digit string. -/
def digitsToNat (ds : List Char) : Nat :=
  ds.foldl (fun a c => a * 10 + (c.toNat - 48)) 0

/-- Largest `u64`. -/
def u64Max : Nat := 18446744073709551615

/-- Largest `i32`. -/
def i32Max : Nat := 2147483647

/-- Two's-complement wrap-around of an `i32` counter, the release-mode
behaviour of the decoder's exponent counters (observable only on
number tokens of two billion digits and more). -/
def i32Wrap (x : Int) : Int :=
  (x + 2 ^ 31) % 2 ^ 32 - 2 ^ 31

/-- Saturating `i32` addition (`i32::saturating_add`; with a negated
second argument, `i32::saturating_sub`). -/
def i32SatAdd (a b : Int) : Int :=
  max (-(2 ^ 31)) (min ((2 : Int) ^ 31 - 1) (a + b))

/-- Number of bits of `n` (zero for zero), with explicit fuel so that
it evaluates by kernel reduction; the callers stay below `2^1030`. -/
def natBits : Nat → Nat → Nat
  | 0, _ => 0
  | fuel + 1, n => if n = 0 then 0 else natBits fuel (n / 2) + 1

/-- Round a nonnegative integer to the nearest `binary64` value, ties
to even, returned as the exact integer that value denotes (callers
stay far below `2^1024`, where every such value is an integer): keep
the top 53 bits and round on the rest. -/
def round64 (n : Nat) : Nat :=
  if n < 2 ^ 53 then n
  else
    let k := natBits 1100 n - 53
    let q := n / 2 ^ k
    let r := n % 2 ^ k
    let half := 2 ^ (k - 1)
    if half < r ∨ (r = half ∧ q % 2 = 1) then (q + 1) * 2 ^ k else q * 2 ^ k

/-- The decoder's power-of-ten table `POW10`: entry `e ≤ 308` is the
`1e<e>` literal, the correctly rounded `binary64` of `10^e`. -/
def pow10F64 (e : Nat) : Nat := round64 (10 ^ e)

/-- Smallest exact product magnitude at which a `binary64` multiply
rounds to infinity (the tie at the midpoint above the largest finite
value rounds up, to the even side). -/
def f64OverflowBound : Nat := 2 ^ 1024 - 2 ^ 970

/-- Whether the decoder's `f64_from_parts` fails with a
number-out-of-range error.  A negative decimal exponent only ever
divides, which cannot overflow; a positive exponent beyond the power
table fails whenever the mantissa is nonzero; within the table the
rounded mantissa is multiplied by the table constant and fails exactly
when that product reaches the overflow bound. -/
def f64PartsOverflow (sig : Nat) (exp : Int) : Bool :=
  if exp < 0 then false
  else if exp ≤ 308 then decide (f64OverflowBound ≤ round64 sig * pow10F64 exp.toNat)
  else decide (sig ≠ 0)

/-- The decoder's greedy mantissa accumulation over the integer-part
digits: digits are absorbed into a `u64` while they fit; from the
first digit that does not fit on, the parse switches to the long
(float) path for good and every further integer digit only bumps the
decimal exponent counter. -/
def accumIntDigits : List Char → Nat → Bool → Int → Nat × Bool × Int
  | [], sig, switched, expInc => (sig, switched, expInc)
  | d :: ds, sig, switched, expInc =>
    if switched then accumIntDigits ds sig true (i32Wrap (expInc + 1))
    else
      let dv := d.toNat - 48
      if sig * 10 + dv ≤ u64Max then accumIntDigits ds (sig * 10 + dv) false expInc
      else accumIntDigits ds sig true (i32Wrap (expInc + 1))

/-- The decoder's greedy mantissa accumulation over the fraction
digits: absorbed while they fit, each absorbed digit lowering the
decimal exponent by one; the first digit that does not fit ends the
accumulation and the remaining fraction digits are ignored. -/
def accumFracDigits : List Char → Nat → Int → Nat × Int
  | [], sig, expDec => (sig, expDec)
  | d :: ds, sig, expDec =>
    let dv := d.toNat - 48
    if sig * 10 + dv ≤ u64Max then accumFracDigits ds (sig * 10 + dv) (expDec - 1)
    else (sig, expDec)

/-- A JSON number, following `serde_json` exactly.  Syntax: leading
zeros, a bare minus, and a dot or exponent without digits are errors.
Classification: an integer literal whose digits fit a `u64` becomes
`JNum.int` when nonnegative, and when negative becomes `JNum.int` down
to `-2^63` and `JNum.float` below that; `-0` becomes the float `-0.0`
(which later fails `u64` deserialization); anything with a fraction or
exponent, and integer literals overflowing `u64`, take the float path,
where an exponent overflowing `i32` with a nonzero mantissa, or a
value overflowing `binary64` (`f64PartsOverflow`), is a
number-out-of-range parse error.  The float's value is kept as the raw
literal; nothing downstream inspects it. -/
def parseNum (cs : List Char) : Option (JNum × List Char) :=
  let (neg, cs1) := match cs with
    | '-' :: r => (true, r)
    | _ => (false, cs)
  match cs1 with
  | [] => none
  | c :: _ =>
    if ¬ isDigit c then none
    else
      let (intDs, cs2) := takeDigits cs1
      if intDs.length > 1 && intDs.headD '0' = '0' then none
      else
        let (fracDs, hasFrac, cs3) := match cs2 with
          | '.' :: r =>
            let (ds, r') := takeDigits r
            (ds, true, r')
          | _ => ([], false, cs2)
        if hasFrac && fracDs.isEmpty then none
        else
          let (expDs, expPos, hasExp, cs4) := match cs3 with
            | 'e' :: r =>
              match r with
              | '+' :: r2 => let (ds, r3) := takeDigits r2; (ds, true, true, r3)
              | '-' :: r2 => let (ds, r3) := takeDigits r2; (ds, false, true, r3)
              | _ => let (ds, r3) := takeDigits r; (ds, true, true, r3)
            | 'E' :: r =>
              match r with
              | '+' :: r2 => let (ds, r3) := takeDigits r2; (ds, true, true, r3)
              | '-' :: r2 => let (ds, r3) := takeDigits r2; (ds, false, true, r3)
              | _ => let (ds, r3) := takeDigits r; (ds, true, true, r3)
            | _ => ([], true, false, cs3)
          if hasExp && expDs.isEmpty then none
          else
            let raw : List Char :=
              (if neg then ['-'] else []) ++ intDs ++
                (if hasFrac then '.' :: fracDs else []) ++
                (if hasExp then
                  'e' :: (if expPos then [] else ['-']) ++ expDs
                else [])
            let (sig0, switched, expInc) := accumIntDigits intDs 0 false 0
            if !hasFrac && !hasExp && !switched then
              if neg then
                if sig0 = 0 then some (JNum.float (String.mk raw), cs4)
                else if sig0 ≤ 2 ^ 63 then some (JNum.int (-(sig0 : Int)), cs4)
                else some (JNum.float (String.mk raw), cs4)
              else some (JNum.int (sig0 : Int), cs4)
            else
              let (sig, expAfter) :=
                if hasFrac then accumFracDigits fracDs sig0 0 else (sig0, 0)
              let startExp := i32Wrap (expInc + expAfter)
              if hasExp then
                let expVal := digitsToNat expDs
                if i32Max < expVal then
                  if sig ≠ 0 && expPos then none
                  else some (JNum.float (String.mk raw), cs4)
                else
                  let finalExp :=
                    if expPos then i32SatAdd startExp (expVal : Int)
                    else i32SatAdd startExp (-(expVal : Int))
                  if f64PartsOverflow sig finalExp then none
                  else some (JNum.float (String.mk raw), cs4)
              else
                if f64PartsOverflow sig startExp then none
                else some (JNum.float (String.mk raw), cs4)

mutual

/-- One JSON value, not preceded by whitespace.  `depth` is the
decoder's `remaining_depth`: entering an object or array decrements
it, and reaching zero is a recursion-limit parse error, exactly the
`serde_json` limit of 128 levels of nesting. -/
def parseVal : Nat → Nat → List Char → Option (Json × List Char)
  | 0, _, _ => none
  | fuel + 1, depth, cs =>
    match cs with
    | [] => none
    | '{' :: rest =>
      if depth ≤ 1 then none
      else
        match skipWs rest with
        | '}' :: rest1 => some (.obj [], rest1)
        | rest1 => parseMembers fuel (depth - 1) rest1 []
    | '[' :: rest =>
      if depth ≤ 1 then none
      else
        match skipWs rest with
        | ']' :: rest1 => some (.arr [], rest1)
        | rest1 => parseElems fuel (depth - 1) rest1 []
    | '"' :: rest =>
      match parseStrChars fuel rest [] with
      | some (str, rest1) => some (.str str, rest1)
      | none => none
    | 't' :: 'r' :: 'u' :: 'e' :: rest => some (.bool true, rest)
    | 'f' :: 'a' :: 'l' :: 's' :: 'e' :: rest => some (.bool false, rest)
    | 'n' :: 'u' :: 'l' :: 'l' :: rest => some (.null, rest)
    | c :: _ =>
      if c = '-' || isDigit c then
        match parseNum cs with
        | some (n, rest1) => some (.num n, rest1)
        | none => none
      else none

/-- Members of a non-empty JSON object, starting at a key; `depth` is
the remaining depth inside this object. -/
def parseMembers (fuel : Nat) (depth : Nat) (cs : List Char)
    (acc : List (String × Json)) : Option (Json × List Char) :=
  match fuel with
  | 0 => none
  | fuel + 1 =>
    match cs with
    | '"' :: rest => do
      let (k, rest1) ← parseStrChars fuel rest []
      match skipWs rest1 with
      | ':' :: rest2 => do
        let (v, rest3) ← parseVal fuel depth (skipWs rest2)
        match skipWs rest3 with
        | ',' :: rest4 => parseMembers fuel depth (skipWs rest4) (acc ++ [(k, v)])
        | '}' :: rest4 => some (.obj (acc ++ [(k, v)]), rest4)
        | _ => none
      | _ => none
    | _ => none

/-- Elements of a non-empty JSON array; `depth` is the remaining depth
inside this array. -/
def parseElems (fuel : Nat) (depth : Nat) (cs : List Char)
    (acc : List Json) : Option (Json × List Char) :=
  match fuel with
  | 0 => none
  | fuel + 1 => do
    let (v, rest) ← parseVal fuel depth cs
    match skipWs rest with
    | ',' :: rest1 => parseElems fuel depth (skipWs rest1) (acc ++ [v])
    | ']' :: rest1 => some (.arr (acc ++ [v]), rest1)
    | _ => none

end

/-- Parse a whole string as one JSON value: leading and trailing
whitespace allowed, anything after the value is a trailing-characters
error (`serde_json::from_str` behaviour), and nesting is bounded by
the decoder's recursion limit of 128.  The fuel is an upper bound on
the recursion of the parser itself; every recursive step consumes at
least one character, so the fuel is never the reason a well-formed
input fails. -/
def parseJson (s : String) : Except String Json :=
  match parseVal (4 * s.length + 16) 128 (skipWs s.data) with
  | none => .error "invalid JSON syntax"
  | some (j, rest) =>
    match skipWs rest with
    | [] => .ok j
    | _ => .error "trailing characters"

/-! ### serde map semantics (`serde_json::Map`, a `BTreeMap`) -/

/-- Lookup in an object's member list (first match; the maps built by
`mapInsert` never hold a key twice). -/
def mapGet : List (String × Json) → String → Option Json
  | [], _ => none
  | (k1, v) :: rest, k => if k = k1 then some v else mapGet rest k

/-- Lexicographic comparison of char lists by code point; on UTF-8
strings this agrees with the byte-wise `Ord` that `BTreeMap<String, _>`
sorts by. -/
def charListLt : List Char → List Char → Bool
  | _, [] => false
  | [], _ :: _ => true
  | a :: as, b :: bs =>
    if a.toNat < b.toNat then true
    else if b.toNat < a.toNat then false
    else charListLt as bs

/-- String order used by the map. -/
def strLt (a b : String) : Bool :=
  charListLt a.data b.data

/-- Ordered-map insertion, as `BTreeMap::insert`: keys are kept sorted
and an existing binding of the same key is overwritten. -/
def mapInsert : List (String × Json) → String → Json → List (String × Json)
  | [], k, v => [(k, v)]
  | (k1, v1) :: rest, k, v =>
    if k = k1 then (k, v) :: rest
    else if strLt k k1 then (k, v) :: (k1, v1) :: rest
    else (k1, v1) :: mapInsert rest k v

mutual

/-- Conversion of a buffered JSON value to a `serde_json::Value`: every
object node is rebuilt as a sorted map, later duplicate keys
overwriting earlier ones, which is what deserializing the flattened
`extra: serde_json::Value` field performs on the leftover entries. -/
def toValue : Json → Json
  | .null => .null
  | .bool b => .bool b
  | .num n => .num n
  | .str s => .str s
  | .arr xs => .arr (toValueL xs)
  | .obj kvs => .obj (toValueM kvs [])

def toValueL : List Json → List Json
  | [] => []
  | x :: xs => toValue x :: toValueL xs

def toValueM : List (String × Json) → List (String × Json) → List (String × Json)
  | [], acc => acc
  | (k, v) :: rest, acc => toValueM rest (mapInsert acc k (toValue v))

end

/-! ### Deserialization of `LogEvent` (serde derive with `flatten`) -/

/-- Deserializing a `u64` from a JSON value: succeeds exactly on
integers in `u64` range. -/
def deserU64 : Json → Except String Nat
  | .num (.int i) =>
    if 0 ≤ i ∧ i < (2 : Int) ^ 64 then .ok i.toNat
    else .error "invalid value: integer out of range of u64"
  | .num (.float _) => .error "invalid type: floating point, expected u64"
  | _ => .error "invalid type, expected u64"

/-- Deserializing a `String` from a JSON value. -/
def deserString : Json → Except String String
  | .str s => .ok s
  | _ => .error "invalid type, expected a string"

/-- The member walk of the derived `Deserialize` impl for a struct with
a flattened catch-all: members are visited in source order; a known
field is deserialized to its target type on the spot and a repeat of it
is a duplicate-field error; unknown entries are buffered in order; at
end of input a known field never seen is a missing-field error, checked
in declaration order. -/
def deserFields : List (String × Json) → Option Nat → Option String →
    Option String → List (String × Json) →
    Except String (Nat × String × String × List (String × Json))
  | [], tOpt, lOpt, mOpt, acc =>
    match tOpt with
    | none => .error "missing field timestamp"
    | some t =>
      match lOpt with
      | none => .error "missing field level"
      | some l =>
        match mOpt with
        | none => .error "missing field message"
        | some m => .ok (t, l, m, acc)
  | (k, v) :: rest, tOpt, lOpt, mOpt, acc =>
    if k = "timestamp" then
      match tOpt with
      | some _ => .error "duplicate field timestamp"
      | none =>
        match deserU64 v with
        | .error e => .error e
        | .ok n => deserFields rest (some n) lOpt mOpt acc
    else if k = "level" then
      match lOpt with
      | some _ => .error "duplicate field level"
      | none =>
        match deserString v with
        | .error e => .error e
        | .ok s => deserFields rest tOpt (some s) mOpt acc
    else if k = "message" then
      match mOpt with
      | some _ => .error "duplicate field message"
      | none =>
        match deserString v with
        | .error e => .error e
        | .ok s => deserFields rest tOpt lOpt (some s) acc
    else
      deserFields rest tOpt lOpt mOpt (acc ++ [(k, v)])

/-- Deserializing a `LogEvent` from a JSON value: the derived impl
calls `deserialize_map`, so any non-object is an invalid-type error;
otherwise the fixed fields are extracted and the leftover entries
become the flattened `extra` value (always a JSON object). -/
def deserLogEvent : Json → Except String LogEvent
  | .obj kvs =>
    match deserFields kvs none none none [] with
    | .error e => .error e
    | .ok (t, l, m, rest) => .ok ⟨t, l, m, .obj (toValueM rest [])⟩
  | _ => .error "invalid type: expected a map"

/-- `fn parse_json_log(line: &str) -> Result<LogEvent, serde_json::Error>`:
`serde_json::from_str`, i.e. text-level parsing followed by
deserialization of the value. -/
def parse_json_log (line : String) : Except String LogEvent :=
  match parseJson line with
  | .error e => .error e
  | .ok j => deserLogEvent j

/-- Whether a parse result is a success. -/
def resultOk (r : Except String LogEvent) : Bool :=
  match r with
  | .ok _ => true
  | .error _ => false

/-! ### The driver loop (`fn main`) -/

/-- Observable state of a run: the two counters and the lines emitted
so far, one list entry per `println!` / `eprintln!` call. -/
structure RunState where
  successful : Nat
  failed : Nat
  stdoutLines : List String
  stderrLines : List String
deriving DecidableEq

/-- Processing of one successfully read line: parse it; on success
print the checkmark line to stdout and bump `successful`, on failure
print the cross line to stderr and bump `failed`. -/
def processLine (st : RunState) (logLine : String) : RunState :=
  match parse_json_log logLine with
  | .ok event =>
    { st with
      stdoutLines := st.stdoutLines ++ ["✓ Parsed: " ++ event.level ++ " - " ++ event.message]
      successful := st.successful + 1 }
  | .error e =>
    { st with
      stderrLines := st.stderrLines ++ ["✗ Parse error: " ++ e]
      failed := st.failed + 1 }

/-- The `for line in stdin.lock().lines()` loop: each item is either a
read line (`Ok`) or an I/O error (`Err`); a read error prints to stderr
and breaks out of the loop at once. -/
def runLoop : List (Except String String) → RunState → RunState
  | [], st => st
  | item :: rest, st =>
    match item with
    | .ok logLine => runLoop rest (processLine st logLine)
    | .error e =>
      { st with stderrLines := st.stderrLines ++ ["✗ Read error: " ++ e] }

/-- State after the two banner `println!`s, before the loop. -/
def initState : RunState :=
  { successful := 0
    failed := 0
    stdoutLines := ["Simple Log Parser Example",
                    "Enter JSON logs (one per line, Ctrl+D to end):\n"]
    stderrLines := [] }

/-- The summary block printed after the loop. -/
def summaryLines (s f : Nat) : List String :=
  ["\n--- Summary ---", "Successful: " ++ toString s, "Failed: " ++ toString f]

/-- The whole of `fn main` on a given input stream: banner, loop,
summary. -/
def mainRun (input : List (Except String String)) : RunState :=
  let st := runLoop input initState
  { st with stdoutLines := st.stdoutLines ++ summaryLines st.successful st.failed }

/-- Number of lines the loop actually processes: the `Ok` items before
the first read error. -/
def processedCount : List (Except String String) → Nat
  | [] => 0
  | .ok _ :: rest => processedCount rest + 1
  | .error _ :: _ => 0

/-- The keys claimed by the fixed fields of `LogEvent`. -/
def fixedKey (k : String) : Bool :=
  k == "timestamp" || k == "level" || k == "message"

/-- Key test for selecting an object's members of a given name. -/
def keyIs (s : String) : String × Json → Bool :=
  fun kv => kv.1 == s

/-- The members of an object that the flatten walk buffers for
`extra`: everything whose key is not a fixed field. -/
def extraMembers (kvs : List (String × Json)) : List (String × Json) :=
  kvs.filter (fun kv => !fixedKey kv.1)

/-- `serde_json::Value::get(key)` on an object; `None` on anything
else. -/
def jsonGet (j : Json) (k : String) : Option Json :=
  match j with
  | .obj kvs => mapGet kvs k
  | _ => none

/-- A JSON number that is not representable as a `u64`: a negative
integer, or the floating-point representation (which is where fractions
and out-of-range integers land). -/
def numBadU64 : JNum → Prop
  | .int i => i < 0
  | .float _ => True

/-- Number of lines of a batch that parse successfully. -/
def countOk (lines : List String) : Nat :=
  (lines.filter (fun l => resultOk (parse_json_log l))).length

/-- Number of lines of a batch that fail to parse. -/
def countFail (lines : List String) : Nat :=
  (lines.filter (fun l => !resultOk (parse_json_log l))).length

/-! ### Characterizing the deserializer -/

/-- Invariant tying the walk's `timestamp` slot to the members not yet
visited: either the field is still pending and the remaining members
hold exactly one well-typed binding of it, or it has been captured with
the final value and no binding of it remains. -/
def tsSlot (tOpt : Option Nat) (n : Nat) (flt : List (String × Json)) : Prop :=
  match tOpt with
  | none => flt = [("timestamp", .num (.int (n : Int)))] ∧ n < 2 ^ 64
  | some c => c = n ∧ flt = []

/-- The same invariant for a string-typed fixed field named `key`. -/
def strSlot (key : String) (o : Option String) (x : String)
    (flt : List (String × Json)) : Prop :=
  match o with
  | none => flt = [(key, .str x)]
  | some c => c = x ∧ flt = []

/-- `deserU64` succeeds exactly on integers in `u64` range, and returns
the integer itself. -/
theorem deserU64_ok_iff (v : Json) (n : Nat) :
    deserU64 v = .ok n ↔ v = .num (.int (n : Int)) ∧ n < 2 ^ 64 := by
  cases v with
  | num jn =>
    cases jn with
    | int i =>
      simp only [deserU64, Json.num.injEq, JNum.int.injEq]
      split
      · rename_i h
        simp only [Except.ok.injEq]
        omega
      · rename_i h
        constructor
        · intro h'
          exact absurd h' (by simp)
        · rintro ⟨rfl, hn⟩
          exact absurd (by omega) h
    | float r => simp [deserU64]
  | null => simp [deserU64]
  | bool b => simp [deserU64]
  | str s => simp [deserU64]
  | arr xs => simp [deserU64]
  | obj kvs => simp [deserU64]

/-- `deserString` succeeds exactly on strings. -/
theorem deserString_ok_iff (v : Json) (s : String) :
    deserString v = .ok s ↔ v = .str s := by
  cases v <;> simp [deserString]

/-- One step of the member walk at a `timestamp` binding not yet seen. -/
theorem deserFields_cons_ts (v : Json) (c : Nat) (hv : deserU64 v = .ok c)
    (rest : List (String × Json)) (lOpt mOpt : Option String)
    (acc : List (String × Json)) :
    deserFields (("timestamp", v) :: rest) none lOpt mOpt acc =
      deserFields rest (some c) lOpt mOpt acc := by
  simp [deserFields, hv]

/-- One step of the member walk at a `level` binding not yet seen. -/
theorem deserFields_cons_level (v : Json) (c : String) (hv : deserString v = .ok c)
    (rest : List (String × Json)) (tOpt : Option Nat) (mOpt : Option String)
    (acc : List (String × Json)) :
    deserFields (("level", v) :: rest) tOpt none mOpt acc =
      deserFields rest tOpt (some c) mOpt acc := by
  simp [deserFields, hv]

/-- One step of the member walk at a `message` binding not yet seen. -/
theorem deserFields_cons_msg (v : Json) (c : String) (hv : deserString v = .ok c)
    (rest : List (String × Json)) (tOpt : Option Nat) (lOpt : Option String)
    (acc : List (String × Json)) :
    deserFields (("message", v) :: rest) tOpt lOpt none acc =
      deserFields rest tOpt lOpt (some c) acc := by
  simp [deserFields, hv]

/-- One step of the member walk at a non-fixed binding: it is buffered. -/
theorem deserFields_cons_other (k : String) (v : Json) (hk : fixedKey k = false)
    (rest : List (String × Json)) (tOpt : Option Nat) (lOpt mOpt : Option String)
    (acc : List (String × Json)) :
    deserFields ((k, v) :: rest) tOpt lOpt mOpt acc =
      deserFields rest tOpt lOpt mOpt (acc ++ [(k, v)]) := by
  simp only [fixedKey, Bool.or_eq_false_iff, beq_eq_false_iff_ne, ne_eq] at hk
  obtain ⟨⟨hk1, hk2⟩, hk3⟩ := hk
  simp [deserFields, hk1, hk2, hk3]

/-- Selecting a key keeps a member carrying exactly that key. -/
theorem filter_keyIs_cons_self (k : String) (v : Json)
    (rest : List (String × Json)) :
    ((k, v) :: rest).filter (keyIs k) = (k, v) :: rest.filter (keyIs k) := by
  simp [List.filter_cons, keyIs]

/-- Selecting a key drops a member carrying a different key. -/
theorem filter_keyIs_cons_ne (k k' : String) (v : Json) (hk : k ≠ k')
    (rest : List (String × Json)) :
    ((k, v) :: rest).filter (keyIs k') = rest.filter (keyIs k') := by
  simp [List.filter_cons, keyIs, hk]

/-- A fixed-field member is not buffered into `extra`. -/
theorem extraMembers_cons_fixed (k : String) (v : Json) (hk : fixedKey k = true)
    (rest : List (String × Json)) :
    extraMembers ((k, v) :: rest) = extraMembers rest := by
  simp [extraMembers, List.filter_cons, hk]

/-- A non-fixed member is buffered into `extra`. -/
theorem extraMembers_cons_other (k : String) (v : Json) (hk : fixedKey k = false)
    (rest : List (String × Json)) :
    extraMembers ((k, v) :: rest) = (k, v) :: extraMembers rest := by
  simp [extraMembers, List.filter_cons, hk]

/-- Completeness of the member walk: if each fixed field is either
already captured or bound exactly once and well-typed among the
remaining members, the walk succeeds, returns those values, and buffers
exactly the non-fixed members, in order, after the already-buffered
ones. -/
theorem deserFields_ok_of (n : Nat) (l m : String) :
    ∀ (kvs : List (String × Json)) (tOpt : Option Nat) (lOpt mOpt : Option String)
      (acc : List (String × Json)),
      tsSlot tOpt n (kvs.filter (keyIs "timestamp")) →
      strSlot "level" lOpt l (kvs.filter (keyIs "level")) →
      strSlot "message" mOpt m (kvs.filter (keyIs "message")) →
      deserFields kvs tOpt lOpt mOpt acc = .ok (n, l, m, acc ++ extraMembers kvs)
  | [], tOpt, lOpt, mOpt, acc => by
    intro ht hl hm
    simp only [List.filter_nil] at ht hl hm
    cases tOpt with
    | none => simp [tsSlot] at ht
    | some tc =>
      cases lOpt with
      | none => simp [strSlot] at hl
      | some lc =>
        cases mOpt with
        | none => simp [strSlot] at hm
        | some mc =>
          obtain ⟨rfl, -⟩ := ht
          obtain ⟨rfl, -⟩ := hl
          obtain ⟨rfl, -⟩ := hm
          simp [deserFields, extraMembers]
  | (k, v) :: rest, tOpt, lOpt, mOpt, acc => by
    intro ht hl hm
    by_cases hk1 : k = "timestamp"
    · subst hk1
      rw [filter_keyIs_cons_self] at ht
      rw [filter_keyIs_cons_ne _ _ _ (by decide)] at hl
      rw [filter_keyIs_cons_ne _ _ _ (by decide)] at hm
      cases tOpt with
      | some tc => exact absurd ht.2 (List.cons_ne_nil _ _)
      | none =>
        obtain ⟨hcons, hn⟩ := ht
        simp only [List.cons.injEq, Prod.mk.injEq, true_and] at hcons
        obtain ⟨rfl, hrest⟩ := hcons
        rw [deserFields_cons_ts _ n ((deserU64_ok_iff _ n).mpr ⟨rfl, hn⟩)]
        rw [extraMembers_cons_fixed _ _ (by decide)]
        exact deserFields_ok_of n l m rest (some n) lOpt mOpt acc
          ⟨rfl, hrest⟩ hl hm
    · by_cases hk2 : k = "level"
      · subst hk2
        rw [filter_keyIs_cons_self] at hl
        rw [filter_keyIs_cons_ne _ _ _ (by decide)] at ht
        rw [filter_keyIs_cons_ne _ _ _ (by decide)] at hm
        cases lOpt with
        | some lc => exact absurd hl.2 (List.cons_ne_nil _ _)
        | none =>
          simp only [strSlot, List.cons.injEq, Prod.mk.injEq, true_and] at hl
          obtain ⟨rfl, hrest⟩ := hl
          rw [deserFields_cons_level _ l ((deserString_ok_iff _ l).mpr rfl)]
          rw [extraMembers_cons_fixed _ _ (by decide)]
          exact deserFields_ok_of n l m rest tOpt (some l) mOpt acc
            ht ⟨rfl, hrest⟩ hm
      · by_cases hk3 : k = "message"
        · subst hk3
          rw [filter_keyIs_cons_self] at hm
          rw [filter_keyIs_cons_ne _ _ _ (by decide)] at ht
          rw [filter_keyIs_cons_ne _ _ _ (by decide)] at hl
          cases mOpt with
          | some mc => exact absurd hm.2 (List.cons_ne_nil _ _)
          | none =>
            simp only [strSlot, List.cons.injEq, Prod.mk.injEq, true_and] at hm
            obtain ⟨rfl, hrest⟩ := hm
            rw [deserFields_cons_msg _ m ((deserString_ok_iff _ m).mpr rfl)]
            rw [extraMembers_cons_fixed _ _ (by decide)]
            exact deserFields_ok_of n l m rest tOpt lOpt (some m) acc
              ht hl ⟨rfl, hrest⟩
        · have hfx : fixedKey k = false := by
            simp [fixedKey, hk1, hk2, hk3]
          rw [filter_keyIs_cons_ne _ _ _ hk1] at ht
          rw [filter_keyIs_cons_ne _ _ _ hk2] at hl
          rw [filter_keyIs_cons_ne _ _ _ hk3] at hm
          rw [deserFields_cons_other _ _ hfx]
          rw [extraMembers_cons_other _ _ hfx]
          rw [deserFields_ok_of n l m rest tOpt lOpt mOpt (acc ++ [(k, v)]) ht hl hm]
          simp

/-- Soundness of the member walk: a successful walk pins down the slot
invariants — each fixed field was either already captured or bound
exactly once and well-typed among the members walked — and the buffer
extends the accumulator with exactly the non-fixed members in order. -/
theorem deserFields_ok_inv :
    ∀ (kvs : List (String × Json)) (tOpt : Option Nat) (lOpt mOpt : Option String)
      (acc : List (String × Json)) (n : Nat) (l m : String) (buf : List (String × Json)),
      deserFields kvs tOpt lOpt mOpt acc = .ok (n, l, m, buf) →
      tsSlot tOpt n (kvs.filter (keyIs "timestamp")) ∧
      strSlot "level" lOpt l (kvs.filter (keyIs "level")) ∧
      strSlot "message" mOpt m (kvs.filter (keyIs "message")) ∧
      buf = acc ++ extraMembers kvs
  | [], tOpt, lOpt, mOpt, acc, n, l, m, buf => by
    intro h
    cases tOpt with
    | none => simp [deserFields] at h
    | some tc =>
      cases lOpt with
      | none => simp [deserFields] at h
      | some lc =>
        cases mOpt with
        | none => simp [deserFields] at h
        | some mc =>
          simp only [deserFields, Except.ok.injEq, Prod.mk.injEq] at h
          obtain ⟨rfl, rfl, rfl, rfl⟩ := h
          exact ⟨⟨rfl, rfl⟩, ⟨rfl, rfl⟩, ⟨rfl, rfl⟩, by simp [extraMembers]⟩
  | (k, v) :: rest, tOpt, lOpt, mOpt, acc, n, l, m, buf => by
    intro h
    by_cases hk1 : k = "timestamp"
    · subst hk1
      rw [filter_keyIs_cons_self, filter_keyIs_cons_ne _ _ _ (by decide),
        filter_keyIs_cons_ne _ _ _ (by decide), extraMembers_cons_fixed _ _ (by decide)]
      cases tOpt with
      | some tc => simp [deserFields] at h
      | none =>
        cases hdu : deserU64 v with
        | error e => simp [deserFields, hdu] at h
        | ok c =>
          rw [deserFields_cons_ts _ c hdu] at h
          obtain ⟨ht, hl, hm, hbuf⟩ :=
            deserFields_ok_inv rest (some c) lOpt mOpt acc n l m buf h
          obtain ⟨rfl, hrest⟩ := ht
          obtain ⟨hv, hn⟩ := (deserU64_ok_iff v c).mp hdu
          subst hv
          exact ⟨⟨by rw [hrest], hn⟩, hl, hm, hbuf⟩
    · by_cases hk2 : k = "level"
      · subst hk2
        rw [filter_keyIs_cons_self, filter_keyIs_cons_ne _ _ _ (by decide),
          filter_keyIs_cons_ne _ _ _ (by decide), extraMembers_cons_fixed _ _ (by decide)]
        cases lOpt with
        | some lc => simp [deserFields] at h
        | none =>
          cases hds : deserString v with
          | error e => simp [deserFields, hds] at h
          | ok c =>
            rw [deserFields_cons_level _ c hds] at h
            obtain ⟨ht, hl, hm, hbuf⟩ :=
              deserFields_ok_inv rest tOpt (some c) mOpt acc n l m buf h
            obtain ⟨rfl, hrest⟩ := hl
            have hv := (deserString_ok_iff v c).mp hds
            subst hv
            exact ⟨ht, by simp [strSlot, hrest], hm, hbuf⟩
      · by_cases hk3 : k = "message"
        · subst hk3
          rw [filter_keyIs_cons_self, filter_keyIs_cons_ne _ _ _ (by decide),
            filter_keyIs_cons_ne _ _ _ (by decide), extraMembers_cons_fixed _ _ (by decide)]
          cases mOpt with
          | some mc => simp [deserFields] at h
          | none =>
            cases hds : deserString v with
            | error e => simp [deserFields, hds] at h
            | ok c =>
              rw [deserFields_cons_msg _ c hds] at h
              obtain ⟨ht, hl, hm, hbuf⟩ :=
                deserFields_ok_inv rest tOpt lOpt (some c) acc n l m buf h
              obtain ⟨rfl, hrest⟩ := hm
              have hv := (deserString_ok_iff v c).mp hds
              subst hv
              exact ⟨ht, hl, by simp [strSlot, hrest], hbuf⟩
        · have hfx : fixedKey k = false := by
            simp [fixedKey, hk1, hk2, hk3]
          rw [filter_keyIs_cons_ne _ _ _ hk1, filter_keyIs_cons_ne _ _ _ hk2,
            filter_keyIs_cons_ne _ _ _ hk3, extraMembers_cons_other _ _ hfx]
          rw [deserFields_cons_other _ _ hfx] at h
          obtain ⟨ht, hl, hm, hbuf⟩ :=
            deserFields_ok_inv rest tOpt lOpt mOpt (acc ++ [(k, v)]) n l m buf h
          exact ⟨ht, hl, hm, by simpa using hbuf⟩

/-- Deserializing an object whose fixed fields are each bound exactly
once and well-typed succeeds and produces exactly those fields, with
the remaining members collected into `extra`. -/
theorem deserLogEvent_obj_ok (kvs : List (String × Json)) (n : Nat) (l m : String)
    (hn : n < 2 ^ 64)
    (ht : kvs.filter (keyIs "timestamp") = [("timestamp", .num (.int (n : Int)))])
    (hl : kvs.filter (keyIs "level") = [("level", .str l)])
    (hm : kvs.filter (keyIs "message") = [("message", .str m)]) :
    deserLogEvent (.obj kvs) = .ok ⟨n, l, m, .obj (toValueM (extraMembers kvs) [])⟩ := by
  have h := deserFields_ok_of n l m kvs none none none [] ⟨ht, hn⟩ hl hm
  simp [deserLogEvent, h]

/-- A successful deserialization pins the input down: it was an object,
each fixed field was bound exactly once and well-typed, the timestamp
is in `u64` range, and `extra` is the map built from the remaining
members. -/
theorem deserLogEvent_ok_inv (j : Json) (ev : LogEvent)
    (h : deserLogEvent j = .ok ev) :
    ∃ kvs, j = .obj kvs ∧
      kvs.filter (keyIs "timestamp") =
        [("timestamp", .num (.int (ev.timestamp : Int)))] ∧
      ev.timestamp < 2 ^ 64 ∧
      kvs.filter (keyIs "level") = [("level", .str ev.level)] ∧
      kvs.filter (keyIs "message") = [("message", .str ev.message)] ∧
      ev.extra = .obj (toValueM (extraMembers kvs) []) := by
  cases j with
  | obj kvs =>
    refine ⟨kvs, rfl, ?_⟩
    cases hdf : deserFields kvs none none none [] with
    | error e => simp [deserLogEvent, hdf] at h
    | ok q =>
      obtain ⟨t, l, m, buf⟩ := q
      simp only [deserLogEvent, hdf, Except.ok.injEq] at h
      obtain ⟨ht, hl, hm, hbuf⟩ := deserFields_ok_inv kvs none none none [] t l m buf hdf
      subst h
      simp only [List.nil_append] at hbuf
      subst hbuf
      exact ⟨ht.1, ht.2, hl, hm, rfl⟩
  | null => simp [deserLogEvent] at h
  | bool b => simp [deserLogEvent] at h
  | num x => simp [deserLogEvent] at h
  | str x => simp [deserLogEvent] at h
  | arr xs => simp [deserLogEvent] at h

/-- A successful `parse_json_log` pins the input line down the same
way, through the text-level parse. -/
theorem parse_json_log_ok_inv (s : String) (ev : LogEvent)
    (h : parse_json_log s = .ok ev) :
    ∃ kvs, parseJson s = .ok (.obj kvs) ∧
      kvs.filter (keyIs "timestamp") =
        [("timestamp", .num (.int (ev.timestamp : Int)))] ∧
      ev.timestamp < 2 ^ 64 ∧
      kvs.filter (keyIs "level") = [("level", .str ev.level)] ∧
      kvs.filter (keyIs "message") = [("message", .str ev.message)] ∧
      ev.extra = .obj (toValueM (extraMembers kvs) []) := by
  cases hp : parseJson s with
  | error e => simp [parse_json_log, hp] at h
  | ok j =>
    simp only [parse_json_log, hp] at h
    obtain ⟨kvs, rfl, hrest⟩ := deserLogEvent_ok_inv j ev h
    exact ⟨kvs, rfl, hrest⟩

/-! ### The `extra` map -/

/-- Inserting then looking up the same key gives the inserted value. -/
theorem mapGet_mapInsert_self (mp : List (String × Json)) (k : String) (v : Json) :
    mapGet (mapInsert mp k v) k = some v := by
  induction mp with
  | nil => simp [mapInsert, mapGet]
  | cons hd tl ih =>
    obtain ⟨k1, v1⟩ := hd
    by_cases hk : k = k1
    · subst hk
      simp [mapInsert, mapGet]
    · by_cases hlt : strLt k k1
      · simp [mapInsert, hk, hlt, mapGet]
      · simp [mapInsert, hk, hlt, mapGet, ih]

/-- Inserting one key leaves lookups of any other key unchanged. -/
theorem mapGet_mapInsert_ne (mp : List (String × Json)) (k k' : String) (v : Json)
    (hne : k' ≠ k) :
    mapGet (mapInsert mp k v) k' = mapGet mp k' := by
  induction mp with
  | nil => simp [mapInsert, mapGet, hne]
  | cons hd tl ih =>
    obtain ⟨k1, v1⟩ := hd
    by_cases hk : k = k1
    · subst hk
      simp [mapInsert, mapGet, hne]
    · by_cases hlt : strLt k k1
      · simp [mapInsert, hk, hlt, mapGet, hne]
      · by_cases hk' : k' = k1
        · subst hk'
          simp [mapInsert, hk, hlt, mapGet]
        · simp [mapInsert, hk, hlt, mapGet, hk', ih]

/-- Building the `extra` map from members never touched by a key leaves
that key's lookup to the accumulator. -/
theorem mapGet_toValueM_not_mem (k : String) :
    ∀ (kvs acc : List (String × Json)),
      (∀ w, (k, w) ∉ kvs) → mapGet (toValueM kvs acc) k = mapGet acc k
  | [], acc, h => by simp [toValueM]
  | (k1, v1) :: rest, acc, h => by
    have hk1 : k ≠ k1 := fun he => h v1 (by rw [he]; exact List.mem_cons_self _ _)
    rw [show toValueM ((k1, v1) :: rest) acc =
        toValueM rest (mapInsert acc k1 (toValue v1)) from by simp [toValueM]]
    rw [mapGet_toValueM_not_mem k rest _ (fun w hw => h w (List.mem_cons_of_mem _ hw))]
    exact mapGet_mapInsert_ne _ _ _ _ hk1

/-- If the members carry exactly one binding of a key, the built map
returns that binding's value (converted to a `serde_json::Value`). -/
theorem mapGet_toValueM_last (k : String) (v : Json) :
    ∀ (kvs acc : List (String × Json)),
      kvs.filter (keyIs k) = [(k, v)] →
      mapGet (toValueM kvs acc) k = some (toValue v)
  | [], acc, h => by simp at h
  | (k1, v1) :: rest, acc, h => by
    rw [show toValueM ((k1, v1) :: rest) acc =
        toValueM rest (mapInsert acc k1 (toValue v1)) from by simp [toValueM]]
    by_cases hk : k1 = k
    · subst hk
      rw [filter_keyIs_cons_self] at h
      simp only [List.cons.injEq, Prod.mk.injEq, true_and] at h
      obtain ⟨rfl, hrest⟩ := h
      have hnm : ∀ w, (k1, w) ∉ rest := by
        intro w hw
        have := (List.filter_eq_nil_iff.mp hrest) (k1, w) hw
        simp [keyIs] at this
      rw [mapGet_toValueM_not_mem k1 rest _ hnm]
      exact mapGet_mapInsert_self acc k1 (toValue v1)
    · rw [filter_keyIs_cons_ne _ _ _ hk] at h
      exact mapGet_toValueM_last k v rest _ h

/-- Any key bound in the members (or already in the accumulator) is
bound in the built map. -/
theorem mapGet_toValueM_mem (k : String) :
    ∀ (kvs acc : List (String × Json)),
      ((∃ w, (k, w) ∈ kvs) ∨ (∃ w, mapGet acc k = some w)) →
      ∃ w, mapGet (toValueM kvs acc) k = some w
  | [], acc, h => by
    rcases h with ⟨w, hw⟩ | hw
    · simp at hw
    · simpa [toValueM] using hw
  | (k1, v1) :: rest, acc, h => by
    rw [show toValueM ((k1, v1) :: rest) acc =
        toValueM rest (mapInsert acc k1 (toValue v1)) from by simp [toValueM]]
    apply mapGet_toValueM_mem k rest
    rcases h with ⟨w, hw⟩ | ⟨w, hw⟩
    · rcases List.mem_cons.mp hw with heq | hmem
      · right
        obtain ⟨rfl, -⟩ : k = k1 ∧ w = v1 := by
          simpa [Prod.ext_iff] using heq
        exact ⟨toValue v1, mapGet_mapInsert_self _ _ _⟩
      · exact Or.inl ⟨w, hmem⟩
    · by_cases hkk : k = k1
      · subst hkk
        exact Or.inr ⟨toValue v1, mapGet_mapInsert_self _ _ _⟩
      · exact Or.inr ⟨w, by rw [mapGet_mapInsert_ne _ _ _ _ hkk]; exact hw⟩

/-- A fixed-field key has no binding among the buffered members. -/
theorem not_mem_extraMembers_fixed (k : String) (hk : fixedKey k = true)
    (kvs : List (String × Json)) : ∀ w, (k, w) ∉ extraMembers kvs := by
  intro w hw
  have := (List.mem_filter.mp hw).2
  rw [hk] at this
  simp at this

/-- Filtering for a non-fixed key passes through the `extra` selection. -/
theorem extraMembers_filter_keyIs (k : String) (hk : fixedKey k = false) :
    ∀ kvs : List (String × Json),
      (extraMembers kvs).filter (keyIs k) = kvs.filter (keyIs k)
  | [] => by simp [extraMembers]
  | (k1, v1) :: rest => by
    cases hf : fixedKey k1 with
    | true =>
      rw [extraMembers_cons_fixed _ _ hf]
      have hne : k1 ≠ k := fun he => by rw [he, hk] at hf; exact Bool.noConfusion hf
      rw [filter_keyIs_cons_ne _ _ _ hne, extraMembers_filter_keyIs k hk rest]
    | false =>
      rw [extraMembers_cons_other _ _ hf]
      by_cases hk1 : k1 = k
      · subst hk1
        rw [filter_keyIs_cons_self, filter_keyIs_cons_self,
          extraMembers_filter_keyIs _ hk rest]
      · rw [filter_keyIs_cons_ne _ _ _ hk1, filter_keyIs_cons_ne _ _ _ hk1,
          extraMembers_filter_keyIs k hk rest]

/-! ### The driver loop -/

/-- A successfully parsed line prints one checkmark line to stdout and
bumps the success counter, and nothing else. -/
theorem processLine_ok (st : RunState) (line : String) (ev : LogEvent)
    (h : parse_json_log line = .ok ev) :
    processLine st line =
      { st with
        stdoutLines := st.stdoutLines ++
          ["✓ Parsed: " ++ ev.level ++ " - " ++ ev.message]
        successful := st.successful + 1 } := by
  simp [processLine, h]

/-- A line that fails to parse prints one cross line to stderr and
bumps the failure counter, and nothing else. -/
theorem processLine_err (st : RunState) (line e : String)
    (h : parse_json_log line = .error e) :
    processLine st line =
      { st with
        stderrLines := st.stderrLines ++ ["✗ Parse error: " ++ e]
        failed := st.failed + 1 } := by
  simp [processLine, h]

/-- The loop over a batch of successful reads composes. -/
theorem runLoop_append_ok (pre : List String) :
    ∀ (rest : List (Except String String)) (st : RunState),
      runLoop (pre.map .ok ++ rest) st = runLoop rest (runLoop (pre.map .ok) st) := by
  induction pre with
  | nil => intro rest st; simp [runLoop]
  | cons hd tl ih =>
    intro rest st
    simp only [List.map_cons, List.cons_append, runLoop]
    exact ih rest (processLine st hd)

/-- Counter bookkeeping over a batch of successful reads: exactly the
parsable lines are counted as successes and the rest as failures, on
top of whatever the counters already held. -/
theorem runLoop_counters (lines : List String) :
    ∀ st : RunState,
      (runLoop (lines.map .ok) st).successful = st.successful + countOk lines ∧
      (runLoop (lines.map .ok) st).failed = st.failed + countFail lines := by
  induction lines with
  | nil => intro st; simp [runLoop, countOk, countFail]
  | cons hd tl ih =>
    intro st
    simp only [List.map_cons, runLoop]
    by_cases hr : resultOk (parse_json_log hd) = true
    · obtain ⟨ev, hev⟩ : ∃ ev, parse_json_log hd = .ok ev := by
        cases hpl : parse_json_log hd with
        | ok ev => exact ⟨ev, rfl⟩
        | error e => rw [hpl] at hr; simp [resultOk] at hr
      rw [processLine_ok st hd ev hev]
      refine ⟨?_, ?_⟩
      · rw [(ih _).1]
        simp only [countOk, List.filter_cons, hr, if_true, List.length_cons]
        omega
      · rw [(ih _).2]
        simp only [countFail, List.filter_cons, hr, Bool.not_true, Bool.false_eq_true,
          if_false]
    · obtain ⟨e, hev⟩ : ∃ e, parse_json_log hd = .error e := by
        cases hpl : parse_json_log hd with
        | ok ev => rw [hpl] at hr; simp [resultOk] at hr
        | error e => exact ⟨e, rfl⟩
      rw [processLine_err st hd e hev]
      refine ⟨?_, ?_⟩
      · rw [(ih _).1]
        simp only [countOk, List.filter_cons, hr, Bool.false_eq_true, if_false]
      · rw [(ih _).2]
        simp only [countFail, List.filter_cons, hr, Bool.not_false, if_true,
          List.length_cons]
        omega

/-- The two per-line counts partition the batch. -/
theorem countOk_add_countFail (lines : List String) :
    countOk lines + countFail lines = lines.length := by
  induction lines with
  | nil => simp [countOk, countFail]
  | cons hd tl ih =>
    by_cases hr : resultOk (parse_json_log hd) = true <;>
      simp only [countOk, countFail, List.filter_cons, hr, Bool.not_true, Bool.not_false,
        Bool.false_eq_true, if_true, if_false, List.length_cons] at * <;>
      omega

/-- Each processed line settles the counters by exactly one, on one
side. -/
theorem processLine_counter_step (st : RunState) (line : String) :
    (processLine st line).successful + (processLine st line).failed =
      st.successful + st.failed + 1 ∧
    ((processLine st line).successful = st.successful + 1 ∧
        (processLine st line).failed = st.failed ∨
      (processLine st line).successful = st.successful ∧
        (processLine st line).failed = st.failed + 1) := by
  cases h : parse_json_log line with
  | ok ev => simp [processLine, h]; omega
  | error e => simp [processLine, h]; omega

/-- The loop only ever grows the counters. -/
theorem runLoop_counters_mono :
    ∀ (input : List (Except String String)) (st : RunState),
      st.successful ≤ (runLoop input st).successful ∧
      st.failed ≤ (runLoop input st).failed
  | [], st => by simp [runLoop]
  | .ok line :: rest, st => by
    simp only [runLoop]
    have h1 := processLine_counter_step st line
    have h2 := runLoop_counters_mono rest (processLine st line)
    rcases h1.2 with ⟨ha, hb⟩ | ⟨ha, hb⟩ <;> constructor <;> omega
  | .error e :: rest, st => by simp [runLoop]

/-- The counters sum to the number of lines actually processed. -/
theorem runLoop_counters_sum :
    ∀ (input : List (Except String String)) (st : RunState),
      (runLoop input st).successful + (runLoop input st).failed =
        st.successful + st.failed + processedCount input
  | [], st => by simp [runLoop, processedCount]
  | .ok line :: rest, st => by
    simp only [runLoop, processedCount]
    have h1 := processLine_counter_step st line
    have h2 := runLoop_counters_sum rest (processLine st line)
    omega
  | .error e :: rest, st => by simp [runLoop, processedCount]

/-- A key with no lookup result has no binding at all. -/
theorem mapGet_none_not_mem (kvs : List (String × Json)) (k : String)
    (h : mapGet kvs k = none) : ∀ v, (k, v) ∉ kvs := by
  induction kvs with
  | nil => simp
  | cons hd tl ih =>
    obtain ⟨k1, v1⟩ := hd
    by_cases hk : k = k1
    · subst hk
      simp [mapGet] at h
    · simp only [mapGet, if_neg hk] at h
      intro v hv
      rcases List.mem_cons.mp hv with heq | hmem
      · exact hk (congrArg Prod.fst heq)
      · exact ih h v hmem

/-! ### The claims -/

/-- C1: for every input line that is a well-formed JSON object carrying
a numeric (u64) `timestamp`, a string `level` and a string `message`,
`parse_json_log` succeeds and the returned record's fixed fields equal
the corresponding input values exactly. -/
theorem parse_wellformed_succeeds (s : String) (kvs : List (String × Json))
    (n : Nat) (l m : String)
    (hp : parseJson s = .ok (.obj kvs))
    (hn : n < 2 ^ 64)
    (ht : kvs.filter (keyIs "timestamp") = [("timestamp", .num (.int (n : Int)))])
    (hl : kvs.filter (keyIs "level") = [("level", .str l)])
    (hm : kvs.filter (keyIs "message") = [("message", .str m)]) :
    ∃ ev, parse_json_log s = .ok ev ∧
      ev.timestamp = n ∧ ev.level = l ∧ ev.message = m := by
  refine ⟨⟨n, l, m, .obj (toValueM (extraMembers kvs) [])⟩, ?_, rfl, rfl, rfl⟩
  simp only [parse_json_log, hp]
  exact deserLogEvent_obj_ok kvs n l m hn ht hl hm

/-- Witness for C1 at Scenario A. -/
theorem parse_wellformed_succeeds_witness :
    ∃ ev,
      parse_json_log
          "\x7b\"timestamp\":1704067200,\"level\":\"INFO\",\"message\":\"Test message\"\x7d" =
        .ok ev ∧
      ev.timestamp = 1704067200 ∧ ev.level = "INFO" ∧ ev.message = "Test message" :=
  parse_wellformed_succeeds _
    [("timestamp", Json.num (.int 1704067200)), ("level", Json.str "INFO"),
      ("message", Json.str "Test message")]
    1704067200 "INFO" "Test message" (by rfl) (by norm_num) (by rfl) (by rfl) (by rfl)

/-- C2: `parse_json_log` returns a decode error whenever the line has
malformed JSON syntax, or the top-level value is not an object, or
`timestamp` is present but not numeric, or any of the three required
fields is missing. -/
theorem parse_error_conditions (s : String) :
    (∀ e, parseJson s = .error e → parse_json_log s = .error e) ∧
    (∀ j, parseJson s = .ok j → (∀ kvs, j ≠ .obj kvs) →
      resultOk (parse_json_log s) = false) ∧
    (∀ kvs v, parseJson s = .ok (.obj kvs) → ("timestamp", v) ∈ kvs →
      (∀ x, v ≠ .num x) → resultOk (parse_json_log s) = false) ∧
    (∀ kvs, parseJson s = .ok (.obj kvs) →
      (mapGet kvs "timestamp" = none ∨ mapGet kvs "level" = none ∨
        mapGet kvs "message" = none) →
      resultOk (parse_json_log s) = false) := by
  refine ⟨?_, ?_, ?_, ?_⟩
  · intro e he
    simp [parse_json_log, he]
  · intro j hj hne
    cases hres : parse_json_log s with
    | error e => simp [resultOk]
    | ok ev =>
      obtain ⟨kvs, hp, -⟩ := parse_json_log_ok_inv s ev hres
      exact absurd (Except.ok.inj (hj.symm.trans hp)) (hne kvs)
  · intro kvs v hp hmem hnum
    cases hres : parse_json_log s with
    | error e => simp [resultOk]
    | ok ev =>
      obtain ⟨kvs2, hp2, ht, -, -, -, -⟩ := parse_json_log_ok_inv s ev hres
      have hkk : kvs2 = kvs := (Json.obj.inj (Except.ok.inj (hp.symm.trans hp2))).symm
      subst hkk
      have hv : ("timestamp", v) ∈ kvs2.filter (keyIs "timestamp") :=
        List.mem_filter.mpr ⟨hmem, by simp [keyIs]⟩
      rw [ht] at hv
      simp only [List.mem_singleton, Prod.mk.injEq, true_and] at hv
      exact absurd hv (hnum _)
  · intro kvs hp hnone
    cases hres : parse_json_log s with
    | error e => simp [resultOk]
    | ok ev =>
      obtain ⟨kvs2, hp2, ht, -, hl, hm, -⟩ := parse_json_log_ok_inv s ev hres
      have hkk : kvs2 = kvs := (Json.obj.inj (Except.ok.inj (hp.symm.trans hp2))).symm
      subst hkk
      rcases hnone with hno | hno | hno
      · have hmemf : ("timestamp", Json.num (.int (ev.timestamp : Int))) ∈
            kvs2.filter (keyIs "timestamp") := by
          rw [ht]; exact List.mem_singleton.mpr rfl
        exact absurd (List.mem_of_mem_filter hmemf)
          (mapGet_none_not_mem kvs2 "timestamp" hno _)
      · have hmemf : ("level", Json.str ev.level) ∈ kvs2.filter (keyIs "level") := by
          rw [hl]; exact List.mem_singleton.mpr rfl
        exact absurd (List.mem_of_mem_filter hmemf)
          (mapGet_none_not_mem kvs2 "level" hno _)
      · have hmemf : ("message", Json.str ev.message) ∈ kvs2.filter (keyIs "message") := by
          rw [hm]; exact List.mem_singleton.mpr rfl
        exact absurd (List.mem_of_mem_filter hmemf)
          (mapGet_none_not_mem kvs2 "message" hno _)

/-- Witness for C2 at Scenario B: `timestamp` bound to a string. -/
theorem parse_error_conditions_witness :
    resultOk (parse_json_log "\x7b\"timestamp\":\"invalid\",\"level\":\"INFO\"\x7d") = false :=
  (parse_error_conditions _).2.2.1
    [("timestamp", Json.str "invalid"), ("level", Json.str "INFO")]
    (Json.str "invalid") (by rfl) (List.mem_cons_self _ _)
    (fun x h => Json.noConfusion h)

/-- C3: additional unrecognized keys end up in `extra`, retrievable by
key (as the `serde_json::Value` they parse to), while the fixed fields
are exactly what they would be without the additional keys. -/
theorem parse_extra_retrievable (s : String) (kvs : List (String × Json))
    (n : Nat) (l m : String) (k : String) (v : Json)
    (hp : parseJson s = .ok (.obj kvs))
    (hn : n < 2 ^ 64)
    (ht : kvs.filter (keyIs "timestamp") = [("timestamp", .num (.int (n : Int)))])
    (hl : kvs.filter (keyIs "level") = [("level", .str l)])
    (hm : kvs.filter (keyIs "message") = [("message", .str m)])
    (hk : fixedKey k = false)
    (hkv : kvs.filter (keyIs k) = [(k, v)]) :
    ∃ ev, parse_json_log s = .ok ev ∧ jsonGet ev.extra k = some (toValue v) ∧
      ev.timestamp = n ∧ ev.level = l ∧ ev.message = m := by
  refine ⟨⟨n, l, m, .obj (toValueM (extraMembers kvs) [])⟩, ?_, ?_, rfl, rfl, rfl⟩
  · simp only [parse_json_log, hp]
    exact deserLogEvent_obj_ok kvs n l m hn ht hl hm
  · show mapGet (toValueM (extraMembers kvs) []) k = some (toValue v)
    exact mapGet_toValueM_last k v (extraMembers kvs) []
      (by rw [extraMembers_filter_keyIs k hk]; exact hkv)

/-- Witness for C3 at Scenario C, retrieving the key `user`. -/
theorem parse_extra_retrievable_witness :
    ∃ ev,
      parse_json_log
          "\x7b\"timestamp\":1704067200,\"level\":\"ERROR\",\"message\":\"Failed\",\"user\":\"admin\",\"ip\":\"192.168.1.1\"\x7d" =
        .ok ev ∧
      jsonGet ev.extra "user" = some (toValue (Json.str "admin")) ∧
      ev.timestamp = 1704067200 ∧ ev.level = "ERROR" ∧ ev.message = "Failed" :=
  parse_extra_retrievable _
    [("timestamp", Json.num (.int 1704067200)), ("level", Json.str "ERROR"),
      ("message", Json.str "Failed"), ("user", Json.str "admin"),
      ("ip", Json.str "192.168.1.1")]
    1704067200 "ERROR" "Failed" "user" (Json.str "admin")
    (by rfl) (by norm_num) (by rfl) (by rfl) (by rfl) (by rfl) (by rfl)

/-- C4: the `extra` map of any successfully parsed record holds none of
the keys `timestamp`, `level`, `message`, and every other input key is
routed into it. -/
theorem extra_never_fixed_keys (s : String) (ev : LogEvent)
    (h : parse_json_log s = .ok ev) :
    jsonGet ev.extra "timestamp" = none ∧ jsonGet ev.extra "level" = none ∧
      jsonGet ev.extra "message" = none ∧
      ∀ (kvs : List (String × Json)) (k : String) (v : Json),
        parseJson s = .ok (.obj kvs) → (k, v) ∈ kvs → fixedKey k = false →
        ∃ w, jsonGet ev.extra k = some w := by
  obtain ⟨kvs, hp, ht, hn, hl, hm, hex⟩ := parse_json_log_ok_inv s ev h
  rw [hex]
  refine ⟨?_, ?_, ?_, ?_⟩
  · show mapGet (toValueM (extraMembers kvs) []) "timestamp" = none
    rw [mapGet_toValueM_not_mem _ _ _ (not_mem_extraMembers_fixed _ (by rfl) kvs)]
    rfl
  · show mapGet (toValueM (extraMembers kvs) []) "level" = none
    rw [mapGet_toValueM_not_mem _ _ _ (not_mem_extraMembers_fixed _ (by rfl) kvs)]
    rfl
  · show mapGet (toValueM (extraMembers kvs) []) "message" = none
    rw [mapGet_toValueM_not_mem _ _ _ (not_mem_extraMembers_fixed _ (by rfl) kvs)]
    rfl
  · intro kvs2 k v hp2 hmem hk
    have hkk : kvs2 = kvs := Json.obj.inj (Except.ok.inj (hp2.symm.trans hp))
    subst hkk
    have hmem' : (k, v) ∈ extraMembers kvs2 :=
      List.mem_filter.mpr ⟨hmem, by simp [hk]⟩
    exact mapGet_toValueM_mem k (extraMembers kvs2) [] (Or.inl ⟨v, hmem'⟩)

/-- Witness for C4 at Scenario C: no fixed key in `extra`, and the
additional key `user` is present in it. -/
theorem extra_never_fixed_keys_witness :
    jsonGet (Json.obj (toValueM
        [("user", Json.str "admin"), ("ip", Json.str "192.168.1.1")] [])) "timestamp" =
      none ∧
    ∃ w, jsonGet (Json.obj (toValueM
        [("user", Json.str "admin"), ("ip", Json.str "192.168.1.1")] [])) "user" =
      some w := by
  have h : parse_json_log
      "\x7b\"timestamp\":1704067200,\"level\":\"ERROR\",\"message\":\"Failed\",\"user\":\"admin\",\"ip\":\"192.168.1.1\"\x7d" =
      .ok ⟨1704067200, "ERROR", "Failed",
        .obj (toValueM [("user", Json.str "admin"), ("ip", Json.str "192.168.1.1")] [])⟩ := by
    rfl
  have hthm := extra_never_fixed_keys _ _ h
  refine ⟨hthm.1, hthm.2.2.2
    [("timestamp", Json.num (.int 1704067200)), ("level", Json.str "ERROR"),
      ("message", Json.str "Failed"), ("user", Json.str "admin"),
      ("ip", Json.str "192.168.1.1")]
    "user" (Json.str "admin") (by rfl) ?_ (by rfl)⟩
  exact List.mem_cons_of_mem _ (List.mem_cons_of_mem _
    (List.mem_cons_of_mem _ (List.mem_cons_self _ _)))

/-- C10: a `timestamp` that is numeric but not representable as a
`u64` — negative, fractional, or beyond the 64-bit range (the latter
two land in the floating-point representation) — makes the parse fail
even with all three required fields present. -/
theorem timestamp_out_of_range_fails (s : String) (kvs : List (String × Json))
    (v : JNum) (l m : String)
    (hp : parseJson s = .ok (.obj kvs))
    (ht : kvs.filter (keyIs "timestamp") = [("timestamp", .num v)])
    (hv : numBadU64 v)
    (hl : kvs.filter (keyIs "level") = [("level", .str l)])
    (hm : kvs.filter (keyIs "message") = [("message", .str m)]) :
    resultOk (parse_json_log s) = false := by
  cases hres : parse_json_log s with
  | error e => simp [resultOk]
  | ok ev =>
    obtain ⟨kvs2, hp2, ht2, hn, -, -, -⟩ := parse_json_log_ok_inv s ev hres
    have hkk : kvs2 = kvs := Json.obj.inj (Except.ok.inj (hp2.symm.trans hp))
    subst hkk
    have h12 := ht.symm.trans ht2
    simp only [List.cons.injEq, Prod.mk.injEq, true_and, and_true,
      Json.num.injEq] at h12
    cases v with
    | int i =>
      have hi : i = (ev.timestamp : Int) := JNum.int.inj h12
      have : i < 0 := hv
      omega
    | float r => exact JNum.noConfusion h12

/-- Witness for C10: a negative `timestamp`. -/
theorem timestamp_out_of_range_fails_witness :
    resultOk (parse_json_log "\x7b\"timestamp\":-1,\"level\":\"A\",\"message\":\"B\"\x7d") = false :=
  timestamp_out_of_range_fails _
    [("timestamp", Json.num (.int (-1))), ("level", Json.str "A"),
      ("message", Json.str "B")]
    (.int (-1)) "A" "B" (by rfl) (by rfl) (by norm_num [numBadU64]) (by rfl) (by rfl)

/-- C5: over a run that reads N lines with no read error, of which S
parse successfully, the final summary reports exactly S successes and
N − S failures. -/
theorem summary_counts_exact (lines : List String) :
    (mainRun (lines.map .ok)).successful = countOk lines ∧
    (mainRun (lines.map .ok)).failed = lines.length - countOk lines := by
  have h := runLoop_counters lines initState
  have hpart := countOk_add_countFail lines
  have hs : (mainRun (lines.map .ok)).successful =
      (runLoop (lines.map .ok) initState).successful := by
    simp [mainRun]
  have hf : (mainRun (lines.map .ok)).failed =
      (runLoop (lines.map .ok) initState).failed := by
    simp [mainRun]
  rw [hs, hf, h.1, h.2]
  simp only [initState]
  omega

/-- C6: a read error prints one read-error line to stderr, stops the
loop at once (whatever remains of the input is ignored), and the
summary is printed with the counters accumulated so far, which the
read error does not change. -/
theorem read_error_stops_loop (pre : List String) (e : String)
    (rest : List (Except String String)) :
    mainRun (pre.map .ok ++ .error e :: rest) =
      { successful := (runLoop (pre.map .ok) initState).successful
        failed := (runLoop (pre.map .ok) initState).failed
        stdoutLines := (runLoop (pre.map .ok) initState).stdoutLines ++
          summaryLines (runLoop (pre.map .ok) initState).successful
            (runLoop (pre.map .ok) initState).failed
        stderrLines := (runLoop (pre.map .ok) initState).stderrLines ++
          ["✗ Read error: " ++ e] } := by
  simp only [mainRun, runLoop_append_ok, runLoop]

/-- C7: each success prints exactly one stdout line of the form
checkmark, level, message; each parse failure prints exactly one
stderr line of the form cross, decoder error text; and the run ends
with the three-line summary block labelled `Successful:`/`Failed:` on
stdout. -/
theorem output_line_format :
    (∀ (st : RunState) (line : String) (ev : LogEvent),
      parse_json_log line = .ok ev →
        processLine st line =
          { st with
            stdoutLines := st.stdoutLines ++
              ["✓ Parsed: " ++ ev.level ++ " - " ++ ev.message]
            successful := st.successful + 1 }) ∧
    (∀ (st : RunState) (line e : String),
      parse_json_log line = .error e →
        processLine st line =
          { st with
            stderrLines := st.stderrLines ++ ["✗ Parse error: " ++ e]
            failed := st.failed + 1 }) ∧
    (∀ input : List (Except String String),
      (mainRun input).stdoutLines = (runLoop input initState).stdoutLines ++
        ["\n--- Summary ---",
          "Successful: " ++ toString (runLoop input initState).successful,
          "Failed: " ++ toString (runLoop input initState).failed]) := by
  refine ⟨processLine_ok, processLine_err, ?_⟩
  intro input
  simp [mainRun, summaryLines]

/-- Witness for C7: the two per-line formats at Scenario A and at a
syntactically malformed line. -/
theorem output_line_format_witness :
    processLine initState
        "\x7b\"timestamp\":1704067200,\"level\":\"INFO\",\"message\":\"Test message\"\x7d" =
      { initState with
        stdoutLines := initState.stdoutLines ++ ["✓ Parsed: " ++ "INFO" ++ " - " ++ "Test message"]
        successful := initState.successful + 1 } ∧
    processLine initState "not json" =
      { initState with
        stderrLines := initState.stderrLines ++ ["✗ Parse error: " ++ "invalid JSON syntax"]
        failed := initState.failed + 1 } :=
  ⟨output_line_format.1 initState _
      ⟨1704067200, "INFO", "Test message", .obj (toValueM [] [])⟩ (by rfl),
    output_line_format.2.1 initState "not json" "invalid JSON syntax" (by rfl)⟩

/-- C8: `parse_json_log` is a pure function of its input: equal input
strings give equal results (in the embedding the function is pure by
construction, so determinism is the observable content). -/
theorem parse_json_log_deterministic (s1 s2 : String) (h : s1 = s2) :
    parse_json_log s1 = parse_json_log s2 := by
  rw [h]

/-- Witness for C8. -/
theorem parse_json_log_deterministic_witness :
    parse_json_log "\x7b\"timestamp\":1,\"level\":\"A\",\"message\":\"B\"\x7d" =
      parse_json_log "\x7b\"timestamp\":1,\"level\":\"A\",\"message\":\"B\"\x7d" :=
  parse_json_log_deterministic _ _ rfl

/-- C9: loop counter invariant: each processed line moves exactly one
counter up by exactly one, the counters never decrease across the loop,
and their sum equals the number of lines processed. -/
theorem counter_loop_invariant :
    (∀ (st : RunState) (line : String),
      (processLine st line).successful + (processLine st line).failed =
        st.successful + st.failed + 1 ∧
      ((processLine st line).successful = st.successful + 1 ∧
          (processLine st line).failed = st.failed ∨
        (processLine st line).successful = st.successful ∧
          (processLine st line).failed = st.failed + 1)) ∧
    (∀ (input : List (Except String String)) (st : RunState),
      st.successful ≤ (runLoop input st).successful ∧
      st.failed ≤ (runLoop input st).failed) ∧
    (∀ (input : List (Except String String)) (st : RunState),
      (runLoop input st).successful + (runLoop input st).failed =
        st.successful + st.failed + processedCount input) :=
  ⟨processLine_counter_step, runLoop_counters_mono, runLoop_counters_sum⟩
